import Mathlib

/-!
Shallow embedding of `src/regression.py` (linear regression via batch
gradient descent with numpy) and proofs about it.

Conventions of the embedding:
* numpy arrays of shape (m, n) are `Matrix (Fin m) (Fin n) ℚ` (exact
  arithmetic stands in for IEEE floats, as usual for algebraic claims);
  the feature-normalization component, which needs a square root, is
  embedded over `ℝ` further below.
* `X @ theta` is matrix multiplication `X * theta`, `np.transpose` is
  `Matrix.transpose`.
* Python scalar division raises `ZeroDivisionError` on a zero divisor;
  the error-aware layer models this with `Except`.
* numpy elementwise division of floats does not raise: a zero divisor
  produces `inf`, `-inf` or `nan`; the `NVal` type models this for the
  normalizer.
-/

namespace Regression

open scoped Matrix

/-! ### Pure layer: the arithmetic of `cost_function` and the
`gradient_descent` loop body, translated line by line from the source. -/

/-- `cost_function(X, y, theta, m)` from the source:
`predictions = X @ theta`, `sqr_err = np.square(predictions - y)`,
result `1 / (2 * m) * sum(sqr_err)`.  Python's builtin `sum` over an
(m, 1) array adds up the single entry of every row. -/
def cost_function {mr n : ℕ} (X : Matrix (Fin mr) (Fin n) ℚ)
    (y : Matrix (Fin mr) (Fin 1) ℚ) (theta : Matrix (Fin n) (Fin 1) ℚ)
    (M : ℚ) : ℚ :=
  1 / (2 * M) * ∑ i, ((X * theta) i 0 - y i 0) ^ 2

/-- The `delta` of one loop iteration of `gradient_descent`:
`difference = np.transpose(X @ theta - y)`;
`delta = np.transpose(difference @ X)`. -/
def gd_delta {mr n : ℕ} (X : Matrix (Fin mr) (Fin n) ℚ)
    (y : Matrix (Fin mr) (Fin 1) ℚ) (theta : Matrix (Fin n) (Fin 1) ℚ) :
    Matrix (Fin n) (Fin 1) ℚ :=
  ((X * theta - y)ᵀ * X)ᵀ

/-- One update step of the loop: `theta = theta - (alpha / m) * delta`. -/
def gd_step {mr n : ℕ} (X : Matrix (Fin mr) (Fin n) ℚ)
    (y : Matrix (Fin mr) (Fin 1) ℚ) (alpha M : ℚ)
    (theta : Matrix (Fin n) (Fin 1) ℚ) : Matrix (Fin n) (Fin 1) ℚ :=
  theta - (alpha / M) • gd_delta X y theta

/-- `theta` after `k` update steps of the loop, starting from `theta`. -/
def gd_theta {mr n : ℕ} (X : Matrix (Fin mr) (Fin n) ℚ)
    (y : Matrix (Fin mr) (Fin 1) ℚ) (alpha M : ℚ)
    (theta : Matrix (Fin n) (Fin 1) ℚ) : ℕ → Matrix (Fin n) (Fin 1) ℚ
  | 0 => theta
  | k + 1 => gd_step X y alpha M (gd_theta X y alpha M theta k)

/-- The loop of `gradient_descent`: runs `k` iterations from `theta`,
returning the final `theta` together with the `j_vals` recorded in
order (the source preallocates `j_vals = np.zeros((num_iters, 1))` and
writes slot `i` in iteration `i`; building the list in iteration order
records the same sequence).  Inside each iteration the cost is
evaluated on the freshly updated `theta`. -/
def gd_loop {mr n : ℕ} (X : Matrix (Fin mr) (Fin n) ℚ)
    (y : Matrix (Fin mr) (Fin 1) ℚ) (alpha M : ℚ) :
    Matrix (Fin n) (Fin 1) ℚ → ℕ → Matrix (Fin n) (Fin 1) ℚ × List ℚ
  | theta, 0 => (theta, [])
  | theta, k + 1 =>
    let theta' := gd_step X y alpha M theta
    let r := gd_loop X y alpha M theta' k
    (r.1, cost_function X y theta' M :: r.2)

/-- The spec's form of the cost: `(1 / (2m)) * Σ_i (X_i·theta − y_i)^2`
with `X_i·theta` the dot product of row `i` of `X` with `theta`. -/
def cost_spec {mr n : ℕ} (X : Matrix (Fin mr) (Fin n) ℚ)
    (y : Matrix (Fin mr) (Fin 1) ℚ) (theta : Matrix (Fin n) (Fin 1) ℚ)
    (M : ℚ) : ℚ :=
  1 / (2 * M) * ∑ i, (Matrix.dotProduct (fun j => X i j) (fun j => theta j 0) - y i 0) ^ 2

/-! ### Error-aware layer: `gradient_descent` as the Python function
behaves, with `Except` modelling raised exceptions.

* `np.zeros((num_iters, 1))` raises `ValueError: negative dimensions
  are not allowed` when `num_iters < 0`; this happens before the loop.
* Python scalar division (`alpha / m` in the update, `1 / (2 * m)` in
  `cost_function`) raises `ZeroDivisionError` on a zero divisor.
* `m` and `num_iters` are Python ints, embedded as `ℤ`. -/

inductive PyErr where
  | valueError
  | zeroDivisionError
  deriving DecidableEq, Repr

instance {ε α : Type} [DecidableEq ε] [DecidableEq α] :
    DecidableEq (Except ε α)
  | Except.error e, Except.error e' =>
    decidable_of_iff (e = e') (by constructor <;> (intro h; cases h; rfl))
  | Except.error _, Except.ok _ => Decidable.isFalse (by intro h; cases h)
  | Except.ok _, Except.error _ => Decidable.isFalse (by intro h; cases h)
  | Except.ok a, Except.ok a' =>
    decidable_of_iff (a = a') (by constructor <;> (intro h; cases h; rfl))

/-- Python scalar division: raises `ZeroDivisionError` on divisor 0. -/
def pyDiv (a b : ℚ) : Except PyErr ℚ :=
  if b = 0 then Except.error PyErr.zeroDivisionError else Except.ok (a / b)

/-- `cost_function` with Python's division semantics: `1 / (2 * m)`
raises when `m = 0`, otherwise the result is the pure value. -/
def cost_function_run {mr n : ℕ} (X : Matrix (Fin mr) (Fin n) ℚ)
    (y : Matrix (Fin mr) (Fin 1) ℚ) (theta : Matrix (Fin n) (Fin 1) ℚ)
    (mz : ℤ) : Except PyErr ℚ :=
  match pyDiv 1 (2 * (mz : ℚ)) with
  | Except.error e => Except.error e
  | Except.ok c => Except.ok (c * ∑ i, ((X * theta) i 0 - y i 0) ^ 2)

/-- One iteration of the `gradient_descent` loop with Python
semantics.  The residual transpose and `delta` are computed first;
`alpha / m` is evaluated next (this is where `m = 0` raises, inside
the iteration), then the assignment `theta = theta - (alpha/m)*delta`
and the cost evaluation `j_vals[i][0] = cost_function(...)`. -/
def gd_iter_run {mr n : ℕ} (X : Matrix (Fin mr) (Fin n) ℚ)
    (y : Matrix (Fin mr) (Fin 1) ℚ) (alpha : ℚ) (mz : ℤ)
    (theta : Matrix (Fin n) (Fin 1) ℚ) :
    Except PyErr (Matrix (Fin n) (Fin 1) ℚ × ℚ) :=
  let delta := gd_delta X y theta
  match pyDiv alpha (mz : ℚ) with
  | Except.error e => Except.error e
  | Except.ok c =>
    let theta' := theta - c • delta
    match cost_function_run X y theta' mz with
    | Except.error e => Except.error e
    | Except.ok j => Except.ok (theta', j)

/-- The `for i in range(num_iters)` loop with Python semantics,
threading `theta` and collecting the recorded costs in order. -/
def gd_loop_run {mr n : ℕ} (X : Matrix (Fin mr) (Fin n) ℚ)
    (y : Matrix (Fin mr) (Fin 1) ℚ) (alpha : ℚ) (mz : ℤ) :
    Matrix (Fin n) (Fin 1) ℚ → ℕ →
      Except PyErr (Matrix (Fin n) (Fin 1) ℚ × List ℚ)
  | theta, 0 => Except.ok (theta, [])
  | theta, k + 1 =>
    match gd_iter_run X y alpha mz theta with
    | Except.error e => Except.error e
    | Except.ok (theta', j) =>
      match gd_loop_run X y alpha mz theta' k with
      | Except.error e => Except.error e
      | Except.ok (tf, rest) => Except.ok (tf, j :: rest)

/-- `plot_cost` displays a graph and returns nothing; observationally
it is the unit value. -/
def plot_cost (costs : List ℚ) : Unit := ()

/-- `gradient_descent(X, y, theta, alpha, num_iters, m)` as written:
allocate `j_vals` (raises `ValueError` for negative `num_iters`), run
the loop, pass `j_vals` to `plot_cost`, and return only `theta`. -/
def gradient_descent {mr n : ℕ} (X : Matrix (Fin mr) (Fin n) ℚ)
    (y : Matrix (Fin mr) (Fin 1) ℚ) (theta : Matrix (Fin n) (Fin 1) ℚ)
    (alpha : ℚ) (num_iters mz : ℤ) :
    Except PyErr (Matrix (Fin n) (Fin 1) ℚ) :=
  if num_iters < 0 then Except.error PyErr.valueError
  else
    match gd_loop_run X y alpha mz theta num_iters.toNat with
    | Except.error e => Except.error e
    | Except.ok (tf, jv) =>
      let _ := plot_cost jv
      Except.ok tf

/-! ### Store-passing layer for the frame claim.

In the loop body, `theta = theta - (alpha / m) * delta` evaluates the
numpy expression on the right — which allocates a fresh array — and
rebinds the local name `theta` to it; nothing is written into an
existing array (`X` and `y` are never assigned at all in the source).
The heap is a list of theta-shaped arrays, an address is an index into
it, allocation appends, and the local variable is an address. -/
def gd_heap_loop {mr n : ℕ} (X : Matrix (Fin mr) (Fin n) ℚ)
    (y : Matrix (Fin mr) (Fin 1) ℚ) (alpha M : ℚ) :
    List (Matrix (Fin n) (Fin 1) ℚ) → ℕ → ℕ →
      List (Matrix (Fin n) (Fin 1) ℚ) × ℕ
  | h, t, 0 => (h, t)
  | h, t, k + 1 =>
    gd_heap_loop X y alpha M
      (h ++ [gd_step X y alpha M (h.getD t 0)]) h.length k

/-! ### The normalizer, over `ℝ` with numpy float division.

`normalize(X)` computes `mu = np.mean(X, axis=0)`,
`sigma = np.std(X, axis=0)` and returns `(X - mu) / sigma` with
column-wise broadcasting.  numpy float division by zero does not
raise; it yields `inf`, `-inf` or (for `0/0`) `nan`, modelled by
`NVal`. -/

inductive NVal where
  | num (x : ℝ)
  | posInf
  | negInf
  | nan

/-- Whether a numpy value is finite (a plain number rather than
`inf`, `-inf` or `nan`). -/
def NVal.isFinite : NVal → Bool
  | NVal.num _ => true
  | _ => false

/-- numpy elementwise float division: a zero divisor yields `nan` for
`0/0` and signed infinities otherwise, with only a runtime warning. -/
noncomputable def npDiv (a b : ℝ) : NVal :=
  if b = 0 then
    if a = 0 then NVal.nan else if 0 < a then NVal.posInf else NVal.negInf
  else NVal.num (a / b)

/-- `np.mean(X, axis=0)` at column `j`: the column sum divided by the
number of rows. -/
noncomputable def colMean {m n : ℕ} (X : Matrix (Fin m) (Fin n) ℝ)
    (j : Fin n) : ℝ :=
  (∑ i, X i j) / m

/-- `np.std(X, axis=0)` at column `j` (population std, numpy's
default `ddof=0`): the square root of the mean squared deviation. -/
noncomputable def colStd {m n : ℕ} (X : Matrix (Fin m) (Fin n) ℝ)
    (j : Fin n) : ℝ :=
  Real.sqrt ((∑ i, (X i j - colMean X j) ^ 2) / m)

/-- `normalize(X)` from the source: `(X - mu) / sigma`, elementwise
with column-wise broadcasting, using numpy division. -/
noncomputable def normalize {m n : ℕ} (X : Matrix (Fin m) (Fin n) ℝ) :
    Matrix (Fin m) (Fin n) NVal :=
  Matrix.of fun i j => npDiv (X i j - colMean X j) (colStd X j)

/-- The guarded call site in `load_data`:
`if X.shape[1] > 1: X = normalize(X)` — normalization is applied only
when there is more than one feature column; otherwise `X` flows on
unchanged (injected into `NVal` so both branches have one type). -/
noncomputable def maybeNormalize {m n : ℕ}
    (X : Matrix (Fin m) (Fin n) ℝ) : Matrix (Fin m) (Fin n) NVal :=
  if 1 < n then normalize X
  else Matrix.of fun i j => NVal.num (X i j)

/-- Modelled from the spec: the spec's transformation
`(X[:,j] - mean_j) / stddev_j` as a plain real matrix, used to compare
the payloads of `normalize`'s output with the spec's words. -/
noncomputable def standardized {m n : ℕ}
    (X : Matrix (Fin m) (Fin n) ℝ) : Matrix (Fin m) (Fin n) ℝ :=
  Matrix.of fun i j => (X i j - colMean X j) / colStd X j

/-! ### Helper lemmas -/

lemma gd_theta_shift {mr n : ℕ} (X : Matrix (Fin mr) (Fin n) ℚ)
    (y : Matrix (Fin mr) (Fin 1) ℚ) (alpha M : ℚ)
    (theta : Matrix (Fin n) (Fin 1) ℚ) (k : ℕ) :
    gd_theta X y alpha M (gd_step X y alpha M theta) k =
      gd_theta X y alpha M theta (k + 1) := by
  induction k with
  | zero => rfl
  | succ k ih => simp [gd_theta, ih]

lemma gd_loop_fst {mr n : ℕ} (X : Matrix (Fin mr) (Fin n) ℚ)
    (y : Matrix (Fin mr) (Fin 1) ℚ) (alpha M : ℚ)
    (theta : Matrix (Fin n) (Fin 1) ℚ) (k : ℕ) :
    (gd_loop X y alpha M theta k).1 = gd_theta X y alpha M theta k := by
  induction k generalizing theta with
  | zero => rfl
  | succ k ih => simp [gd_loop, ih, gd_theta_shift]

lemma gd_loop_length {mr n : ℕ} (X : Matrix (Fin mr) (Fin n) ℚ)
    (y : Matrix (Fin mr) (Fin 1) ℚ) (alpha M : ℚ)
    (theta : Matrix (Fin n) (Fin 1) ℚ) (k : ℕ) :
    (gd_loop X y alpha M theta k).2.length = k := by
  induction k generalizing theta with
  | zero => rfl
  | succ k ih => simp [gd_loop, ih]

lemma gd_loop_getElem {mr n : ℕ} (X : Matrix (Fin mr) (Fin n) ℚ)
    (y : Matrix (Fin mr) (Fin 1) ℚ) (alpha M : ℚ)
    (theta : Matrix (Fin n) (Fin 1) ℚ) (k i : ℕ) (hik : i < k) :
    (gd_loop X y alpha M theta k).2[i]? =
      some (cost_function X y (gd_theta X y alpha M theta (i + 1)) M) := by
  induction k generalizing theta i with
  | zero => omega
  | succ k ih =>
    cases i with
    | zero => simp [gd_loop, gd_theta]
    | succ i =>
      have h : i < k := by omega
      simp only [gd_loop, List.getElem?_cons_succ]
      rw [ih _ _ h, gd_theta_shift]

lemma cost_function_run_ok {mr n : ℕ} (X : Matrix (Fin mr) (Fin n) ℚ)
    (y : Matrix (Fin mr) (Fin 1) ℚ) (theta : Matrix (Fin n) (Fin 1) ℚ)
    {mz : ℤ} (hm : mz ≠ 0) :
    cost_function_run X y theta mz =
      Except.ok (cost_function X y theta (mz : ℚ)) := by
  have h2 : (2 : ℚ) * (mz : ℚ) ≠ 0 := by
    have : (mz : ℚ) ≠ 0 := Int.cast_ne_zero.mpr hm
    exact mul_ne_zero two_ne_zero this
  simp [cost_function_run, pyDiv, h2, cost_function]

lemma gd_iter_run_ok {mr n : ℕ} (X : Matrix (Fin mr) (Fin n) ℚ)
    (y : Matrix (Fin mr) (Fin 1) ℚ) (alpha : ℚ) {mz : ℤ} (hm : mz ≠ 0)
    (theta : Matrix (Fin n) (Fin 1) ℚ) :
    gd_iter_run X y alpha mz theta =
      Except.ok (gd_step X y alpha (mz : ℚ) theta,
        cost_function X y (gd_step X y alpha (mz : ℚ) theta) (mz : ℚ)) := by
  have hq : (mz : ℚ) ≠ 0 := Int.cast_ne_zero.mpr hm
  simp [gd_iter_run, pyDiv, hq, cost_function_run_ok X y _ hm, gd_step]

lemma gd_loop_run_ok {mr n : ℕ} (X : Matrix (Fin mr) (Fin n) ℚ)
    (y : Matrix (Fin mr) (Fin 1) ℚ) (alpha : ℚ) {mz : ℤ} (hm : mz ≠ 0)
    (theta : Matrix (Fin n) (Fin 1) ℚ) (k : ℕ) :
    gd_loop_run X y alpha mz theta k =
      Except.ok (gd_loop X y alpha (mz : ℚ) theta k) := by
  induction k generalizing theta with
  | zero => rfl
  | succ k ih =>
    simp [gd_loop_run, gd_iter_run_ok X y alpha hm, ih, gd_loop]

lemma gradient_descent_ok {mr n : ℕ} (X : Matrix (Fin mr) (Fin n) ℚ)
    (y : Matrix (Fin mr) (Fin 1) ℚ) (theta : Matrix (Fin n) (Fin 1) ℚ)
    (alpha : ℚ) {num_iters mz : ℤ} (hni : 0 ≤ num_iters) (hm : mz ≠ 0) :
    gradient_descent X y theta alpha num_iters mz =
      Except.ok (gd_theta X y alpha (mz : ℚ) theta num_iters.toNat) := by
  have h : ¬ num_iters < 0 := not_lt.mpr hni
  simp [gradient_descent, h, gd_loop_run_ok X y alpha hm, gd_loop_fst]

lemma gd_heap_loop_frame {mr n : ℕ} (X : Matrix (Fin mr) (Fin n) ℚ)
    (y : Matrix (Fin mr) (Fin 1) ℚ) (alpha M : ℚ)
    (h : List (Matrix (Fin n) (Fin 1) ℚ)) (t k a : ℕ)
    (ha : a < h.length) :
    ((gd_heap_loop X y alpha M h t k).1)[a]? = h[a]? := by
  induction k generalizing h t with
  | zero => rfl
  | succ k ih =>
    have ha' : a < (h ++ [gd_step X y alpha M (h.getD t 0)]).length := by
      simp; omega
    rw [gd_heap_loop, ih _ _ ha', List.getElem?_append_left ha]

lemma list_getD_concat {α : Type} (l : List α) (a d : α) :
    (l ++ [a]).getD l.length d = a := by
  simp [List.getD_eq_getElem?_getD, List.getElem?_concat_length]

lemma gd_heap_loop_result {mr n : ℕ} (X : Matrix (Fin mr) (Fin n) ℚ)
    (y : Matrix (Fin mr) (Fin 1) ℚ) (alpha M : ℚ)
    (h : List (Matrix (Fin n) (Fin 1) ℚ)) (t k : ℕ) :
    ((gd_heap_loop X y alpha M h t k).1).getD
        (gd_heap_loop X y alpha M h t k).2 0 =
      gd_theta X y alpha M (h.getD t 0) k := by
  induction k generalizing h t with
  | zero => rfl
  | succ k ih =>
    rw [gd_heap_loop, ih, list_getD_concat, gd_theta_shift]

/-! ### The claims -/

/-- C1: one iteration of `gradient_descent` — transpose the residual
`X @ theta - y`, multiply by `X`, transpose the result, scale by
`alpha / m` and subtract — updates `theta` exactly as
`theta := theta - (alpha / m) * transpose(X) @ (X @ theta - y)`:
the transpose-of-transpose construction is the direct mathematical
gradient. -/
theorem c1_transpose_gradient {mr n : ℕ} (X : Matrix (Fin mr) (Fin n) ℚ)
    (y : Matrix (Fin mr) (Fin 1) ℚ) (alpha M : ℚ)
    (theta : Matrix (Fin n) (Fin 1) ℚ) :
    gd_step X y alpha M theta =
      theta - (alpha / M) • (Xᵀ * (X * theta - y)) := by
  simp [gd_step, gd_delta, Matrix.transpose_mul, Matrix.transpose_transpose]

/-- C2: `cost_function(X, y, theta, m)` returns `(1/(2m))` times the
sum over the `m` rows of the squared residual, where the prediction
for row `i` is the dot product of row `i` of `X` with `theta`. -/
theorem c2_cost_formula {mr n : ℕ} (X : Matrix (Fin mr) (Fin n) ℚ)
    (y : Matrix (Fin mr) (Fin 1) ℚ) (theta : Matrix (Fin n) (Fin 1) ℚ)
    (M : ℚ) :
    cost_function X y theta M = cost_spec X y theta M := by
  simp [cost_function, cost_spec, Matrix.mul_apply, Matrix.dotProduct]

/-- C3: the cost history of a `gradient_descent` run with `k`
iterations has length exactly `k`, and entry `i` is `cost_function`
evaluated at the `theta` produced by update step `i + 1` — the cost
is recorded after the `theta` update of the same iteration. -/
theorem c3_cost_history {mr n : ℕ} (X : Matrix (Fin mr) (Fin n) ℚ)
    (y : Matrix (Fin mr) (Fin 1) ℚ) (alpha M : ℚ)
    (theta : Matrix (Fin n) (Fin 1) ℚ) (k i : ℕ) (hik : i < k) :
    (gd_loop X y alpha M theta k).2.length = k ∧
      (gd_loop X y alpha M theta k).2[i]? =
        some (cost_function X y (gd_theta X y alpha M theta (i + 1)) M) :=
  ⟨gd_loop_length X y alpha M theta k,
    gd_loop_getElem X y alpha M theta k i hik⟩

theorem c3_cost_history_witness :
    0 < 1 ∧
      ((gd_loop !![(1 : ℚ)] !![(0 : ℚ)] 1 1 !![(0 : ℚ)] 1).2.length = 1 ∧
        (gd_loop !![(1 : ℚ)] !![(0 : ℚ)] 1 1 !![(0 : ℚ)] 1).2[0]? =
          some (cost_function !![(1 : ℚ)] !![(0 : ℚ)]
            (gd_theta !![(1 : ℚ)] !![(0 : ℚ)] 1 1 !![(0 : ℚ)] (0 + 1)) 1)) :=
  ⟨by decide,
    c3_cost_history !![(1 : ℚ)] !![(0 : ℚ)] 1 1 !![(0 : ℚ)] 1 0 (by decide)⟩

/-- C4, counterexample: the return value of `gradient_descent` cannot
carry the cost history.  With `alpha = 0`, running 1 iteration and
running 0 iterations return the very same value, while the cost
histories of the two runs differ — so the caller does not receive the
cost history (the source passes `j_vals` to `plot_cost` and returns
only `theta`). -/
theorem c4_counterexample :
    gradient_descent !![(1 : ℚ)] !![(0 : ℚ)] !![(0 : ℚ)] 0 1 1 =
        gradient_descent !![(1 : ℚ)] !![(0 : ℚ)] !![(0 : ℚ)] 0 0 1 ∧
      (gd_loop !![(1 : ℚ)] !![(0 : ℚ)] 0 1 !![(0 : ℚ)] 1).2 ≠
        (gd_loop !![(1 : ℚ)] !![(0 : ℚ)] 0 1 !![(0 : ℚ)] 0).2 := by
  constructor
  · rw [@gradient_descent_ok 1 1 !![(1 : ℚ)] !![(0 : ℚ)] !![(0 : ℚ)] 0 1 1
        (by norm_num) (by norm_num),
      @gradient_descent_ok 1 1 !![(1 : ℚ)] !![(0 : ℚ)] !![(0 : ℚ)] 0 0 1
        (by norm_num) (by norm_num)]
    simp [gd_theta, gd_step]
  · simp [gd_loop]

/-- C4, amended: `gradient_descent` returns only the final `theta`
(the value after `num_iters` update steps); the cost history is
handed to the plotting collaborator `plot_cost`, not returned. -/
theorem c4_returns_only_theta {mr n : ℕ} (X : Matrix (Fin mr) (Fin n) ℚ)
    (y : Matrix (Fin mr) (Fin 1) ℚ) (theta : Matrix (Fin n) (Fin 1) ℚ)
    (alpha : ℚ) (num_iters mz : ℤ) (hni : 0 ≤ num_iters) (hm : mz ≠ 0) :
    gradient_descent X y theta alpha num_iters mz =
      Except.ok (gd_theta X y alpha (mz : ℚ) theta num_iters.toNat) :=
  gradient_descent_ok X y theta alpha hni hm

theorem c4_returns_only_theta_witness :
    (0 : ℤ) ≤ 1 ∧ (1 : ℤ) ≠ 0 ∧
      gradient_descent !![(1 : ℚ)] !![(0 : ℚ)] !![(0 : ℚ)] 1 1 1 =
        Except.ok (gd_theta !![(1 : ℚ)] !![(0 : ℚ)] 1 ((1 : ℤ) : ℚ)
          !![(0 : ℚ)] (1 : ℤ).toNat) :=
  ⟨by decide, by decide,
    c4_returns_only_theta !![(1 : ℚ)] !![(0 : ℚ)] !![(0 : ℚ)] 1 1 1
      (by decide) (by decide)⟩

/-- C5, counterexample: invalid configurations do not fail before the
loop.  A call with `m = 0` (and `num_iters = 0`) completes and returns
`theta`, with no error of any kind; a call with `alpha = 0 ≤ 0`
completes as well. -/
theorem c5_counterexample :
    gradient_descent !![(1 : ℚ)] !![(0 : ℚ)] !![(0 : ℚ)] 1 0 0 =
        Except.ok !![(0 : ℚ)] ∧
      gradient_descent !![(1 : ℚ)] !![(0 : ℚ)] !![(0 : ℚ)] 0 1 1 =
        Except.ok !![(0 : ℚ)] := by
  constructor
  · simp [gradient_descent, gd_loop_run]
  · rw [@gradient_descent_ok 1 1 !![(1 : ℚ)] !![(0 : ℚ)] !![(0 : ℚ)] 0 1 1
        (by norm_num) (by norm_num)]
    simp [gd_theta, gd_step]

/-- C5, amended: `gradient_descent` performs no argument validation.
A negative `num_iters` raises `ValueError` at the allocation of the
cost array (before the loop); `m = 0` raises `ZeroDivisionError` at
the division `alpha / m`, inside the first loop iteration, and only
when at least one iteration runs — with `num_iters = 0` the `m = 0`
call returns normally; a nonzero `m` never raises, whatever the sign
of `alpha` or `m`. -/
theorem c5_no_upfront_validation {mr n : ℕ}
    (X : Matrix (Fin mr) (Fin n) ℚ) (y : Matrix (Fin mr) (Fin 1) ℚ)
    (theta : Matrix (Fin n) (Fin 1) ℚ) (alpha : ℚ) (ni mz : ℤ) :
    (ni < 0 →
      gradient_descent X y theta alpha ni mz =
        Except.error PyErr.valueError) ∧
    (mz = 0 → 1 ≤ ni →
      gradient_descent X y theta alpha ni mz =
        Except.error PyErr.zeroDivisionError) ∧
    (mz ≠ 0 → 0 ≤ ni →
      gradient_descent X y theta alpha ni mz =
        Except.ok (gd_theta X y alpha (mz : ℚ) theta ni.toNat)) ∧
    gradient_descent X y theta alpha 0 mz = Except.ok theta := by
  refine ⟨fun hneg => ?_, fun hm hni => ?_, fun hm hni => ?_, ?_⟩
  · simp [gradient_descent, hneg]
  · subst hm
    have h0 : ¬ ni < 0 := by omega
    have hk : ni.toNat = (ni.toNat - 1) + 1 := by omega
    rw [gradient_descent, if_neg h0, hk]
    simp [gd_loop_run, gd_iter_run, pyDiv]
  · exact gradient_descent_ok X y theta alpha hni hm
  · simp [gradient_descent, gd_loop_run]

theorem c5_no_upfront_validation_witness :
    ((-1 : ℤ) < 0 ∧
      gradient_descent !![(1 : ℚ)] !![(0 : ℚ)] !![(0 : ℚ)] 1 (-1) 5 =
        Except.error PyErr.valueError) ∧
    ((0 : ℤ) = 0 ∧ (1 : ℤ) ≤ 1 ∧
      gradient_descent !![(1 : ℚ)] !![(0 : ℚ)] !![(0 : ℚ)] 1 1 0 =
        Except.error PyErr.zeroDivisionError) ∧
    ((1 : ℤ) ≠ 0 ∧ (0 : ℤ) ≤ 1 ∧
      gradient_descent !![(1 : ℚ)] !![(0 : ℚ)] !![(0 : ℚ)] 1 1 1 =
        Except.ok (gd_theta !![(1 : ℚ)] !![(0 : ℚ)] 1 ((1 : ℤ) : ℚ)
          !![(0 : ℚ)] (1 : ℤ).toNat)) ∧
    gradient_descent !![(1 : ℚ)] !![(0 : ℚ)] !![(0 : ℚ)] 1 0 0 =
      Except.ok !![(0 : ℚ)] :=
  ⟨⟨by decide,
      (c5_no_upfront_validation !![(1 : ℚ)] !![(0 : ℚ)] !![(0 : ℚ)] 1
        (-1) 5).1 (by decide)⟩,
    ⟨rfl, by decide,
      (c5_no_upfront_validation !![(1 : ℚ)] !![(0 : ℚ)] !![(0 : ℚ)] 1
        1 0).2.1 rfl (by decide)⟩,
    ⟨by decide, by decide,
      (c5_no_upfront_validation !![(1 : ℚ)] !![(0 : ℚ)] !![(0 : ℚ)] 1
        1 1).2.2.1 (by decide) (by decide)⟩,
    (c5_no_upfront_validation !![(1 : ℚ)] !![(0 : ℚ)] !![(0 : ℚ)] 1
      0 1).2.2.2⟩

/-- C8: with `num_iters = 0` the loop body never runs:
`gradient_descent` returns the initial `theta` unchanged, and the
cost history built by the loop is empty. -/
theorem c8_zero_iterations {mr n : ℕ} (X : Matrix (Fin mr) (Fin n) ℚ)
    (y : Matrix (Fin mr) (Fin 1) ℚ) (theta : Matrix (Fin n) (Fin 1) ℚ)
    (alpha M : ℚ) (mz : ℤ) :
    gradient_descent X y theta alpha 0 mz = Except.ok theta ∧
      gd_loop X y alpha M theta 0 = (theta, []) := by
  exact ⟨by simp [gradient_descent, gd_loop_run], rfl⟩

/-- C10: the arrays the caller passes in are never written to.  `X`
and `y` are only ever read (the source contains no assignment to
them); for `theta`, each iteration evaluates the numpy expression
`theta - (alpha/m) * delta` — allocating a fresh array — and rebinds
the local name to it.  In the store-passing model: after the run the
caller's original `theta` cell still holds its original value, and
the local name ends up pointing at a cell holding the `k`-step
iterate computed from that original value. -/
theorem c10_inputs_unchanged {mr n : ℕ} (X : Matrix (Fin mr) (Fin n) ℚ)
    (y : Matrix (Fin mr) (Fin 1) ℚ) (alpha M : ℚ)
    (h : List (Matrix (Fin n) (Fin 1) ℚ)) (t k : ℕ)
    (ht : t < h.length) :
    ((gd_heap_loop X y alpha M h t k).1)[t]? = h[t]? ∧
      ((gd_heap_loop X y alpha M h t k).1).getD
          (gd_heap_loop X y alpha M h t k).2 0 =
        gd_theta X y alpha M (h.getD t 0) k :=
  ⟨gd_heap_loop_frame X y alpha M h t k t ht,
    gd_heap_loop_result X y alpha M h t k⟩

theorem c10_inputs_unchanged_witness :
    0 < ([!![(2 : ℚ)]] : List (Matrix (Fin 1) (Fin 1) ℚ)).length ∧
      (((gd_heap_loop !![(1 : ℚ)] !![(0 : ℚ)] 1 1 [!![(2 : ℚ)]] 0 1).1)[0]? =
          ([!![(2 : ℚ)]] : List (Matrix (Fin 1) (Fin 1) ℚ))[0]? ∧
        ((gd_heap_loop !![(1 : ℚ)] !![(0 : ℚ)] 1 1 [!![(2 : ℚ)]] 0 1).1).getD
            (gd_heap_loop !![(1 : ℚ)] !![(0 : ℚ)] 1 1 [!![(2 : ℚ)]] 0 1).2 0 =
          gd_theta !![(1 : ℚ)] !![(0 : ℚ)] 1 1
            (([!![(2 : ℚ)]] : List (Matrix (Fin 1) (Fin 1) ℚ)).getD 0 0) 1) :=
  ⟨by decide,
    c10_inputs_unchanged !![(1 : ℚ)] !![(0 : ℚ)] 1 1 [!![(2 : ℚ)]] 0 1
      (by decide)⟩

/-- C6: the normalization step of the pipeline leaves a
single-feature-column `X` untouched: normalization runs only when
`X` has more than one feature column. -/
theorem c6_single_column_passthrough {m n : ℕ}
    (X1 : Matrix (Fin m) (Fin 1) ℝ) (i : Fin m) (j : Fin 1)
    (X : Matrix (Fin m) (Fin n) ℝ) (hn : 1 < n) :
    maybeNormalize X1 i j = NVal.num (X1 i j) ∧
      maybeNormalize X = normalize X := by
  constructor
  · simp [maybeNormalize]
  · simp [maybeNormalize, hn]

theorem c6_single_column_passthrough_witness :
    maybeNormalize !![(3 : ℝ)] 0 0 = NVal.num (!![(3 : ℝ)] 0 0) ∧
      maybeNormalize !![(1 : ℝ), 2] = normalize !![(1 : ℝ), 2] :=
  @c6_single_column_passthrough 1 2 !![(3 : ℝ)] 0 0 !![(1 : ℝ), 2]
    one_lt_two

lemma sum_sub_colMean {m n : ℕ} (X : Matrix (Fin m) (Fin n) ℝ)
    (j : Fin n) (hm : (m : ℝ) ≠ 0) :
    ∑ i, (X i j - colMean X j) = 0 := by
  rw [Finset.sum_sub_distrib, Finset.sum_const, Finset.card_univ,
    Fintype.card_fin, nsmul_eq_mul, colMean]
  field_simp

/-- C7: on a matrix whose columns all have nonzero standard deviation,
`normalize` returns (finitely) exactly the spec's transformation
`(X[:,j] - mean_j) / stddev_j`, and in exact arithmetic every column
of that transformed matrix has mean 0 and standard deviation 1. -/
theorem c7_standardize {m n : ℕ} (X : Matrix (Fin m) (Fin n) ℝ)
    (i : Fin m) (j : Fin n) (hm : 1 ≤ m) (hn : 2 ≤ n)
    (hσ : ∀ j', colStd X j' ≠ 0) :
    normalize X i j = NVal.num (standardized X i j) ∧
      colMean (standardized X) j = 0 ∧
      colStd (standardized X) j = 1 := by
  have hmr : (m : ℝ) ≠ 0 := Nat.cast_ne_zero.mpr (by omega)
  have hσj : colStd X j ≠ 0 := hσ j
  have hmean : colMean (standardized X) j = 0 := by
    rw [colMean]
    simp only [standardized, Matrix.of_apply]
    rw [← Finset.sum_div, sum_sub_colMean X j hmr, zero_div, zero_div]
  refine ⟨?_, hmean, ?_⟩
  · simp [normalize, npDiv, hσj, standardized]
  · have hS0 : (0 : ℝ) ≤ (∑ i', (X i' j - colMean X j) ^ 2) / m := by
      positivity
    have hσsq : colStd X j ^ 2 =
        (∑ i', (X i' j - colMean X j) ^ 2) / m :=
      Real.sq_sqrt hS0
    have hSne : (∑ i', (X i' j - colMean X j) ^ 2) ≠ 0 := by
      intro h
      exact hσj (by rw [colStd, h, zero_div, Real.sqrt_zero])
    rw [colStd, hmean]
    have hsum : ∑ i', (standardized X i' j - 0) ^ 2 =
        (∑ i', (X i' j - colMean X j) ^ 2) / colStd X j ^ 2 := by
      simp only [standardized, Matrix.of_apply, sub_zero, div_pow]
      rw [← Finset.sum_div]
    rw [hsum, hσsq, div_div_eq_mul_div, mul_comm, mul_div_assoc,
      div_self hSne, mul_one, div_self hmr, Real.sqrt_one]

theorem c7_standardize_witness :
    1 ≤ 2 ∧ 2 ≤ 2 ∧
      (normalize !![(0 : ℝ), 0; 2, 2] 0 0 =
          NVal.num (standardized !![(0 : ℝ), 0; 2, 2] 0 0) ∧
        colMean (standardized !![(0 : ℝ), 0; 2, 2]) 0 = 0 ∧
        colStd (standardized !![(0 : ℝ), 0; 2, 2]) 0 = 1) :=
  ⟨by decide, by decide,
    c7_standardize !![(0 : ℝ), 0; 2, 2] 0 0 (by decide) (by decide)
      (by
        intro j'
        have hc : colMean !![(0 : ℝ), 0; 2, 2] j' = 1 := by
          fin_cases j' <;> norm_num [colMean, Fin.sum_univ_two]
        have hs : (∑ i, (!![(0 : ℝ), 0; 2, 2] i j' - 1) ^ 2) /
            ((2 : ℕ) : ℝ) = 1 := by
          fin_cases j' <;> norm_num [Fin.sum_univ_two]
        rw [colStd, hc, hs, Real.sqrt_one]
        exact one_ne_zero)⟩

/-- C9: with more than one feature column, a zero-variance column is
not guarded: its standard deviation is 0, the division is performed
anyway, and numpy division yields the non-finite `nan` for the
column's entries instead of raising an error. -/
theorem c9_zero_variance_nan {m n : ℕ} (X : Matrix (Fin m) (Fin n) ℝ)
    (i : Fin m) (j : Fin n) (hm : 1 ≤ m) (hn : 1 < n)
    (hconst : ∀ i' i'' : Fin m, X i' j = X i'' j) :
    colStd X j = 0 ∧ maybeNormalize X i j = NVal.nan ∧
      (maybeNormalize X i j).isFinite = false := by
  have hmr : (m : ℝ) ≠ 0 := Nat.cast_ne_zero.mpr (by omega)
  have hμ : colMean X j = X i j := by
    have hs : ∑ i', X i' j = (m : ℝ) * X i j := by
      rw [Finset.sum_congr rfl fun i' _ => hconst i' i]
      simp [Finset.sum_const, Finset.card_univ, nsmul_eq_mul]
    rw [colMean, hs, mul_div_cancel_left₀ _ hmr]
  have hS : (∑ i', (X i' j - colMean X j) ^ 2) = 0 := by
    refine Finset.sum_eq_zero fun i' _ => ?_
    rw [hμ, hconst i' i, sub_self]
    ring
  have hσ : colStd X j = 0 := by
    rw [colStd, hS, zero_div, Real.sqrt_zero]
  have hnan : maybeNormalize X i j = NVal.nan := by
    rw [maybeNormalize, if_pos hn]
    simp [normalize, npDiv, hσ, hμ]
  exact ⟨hσ, hnan, by rw [hnan]; rfl⟩

theorem c9_zero_variance_nan_witness :
    1 ≤ 2 ∧ 1 < 2 ∧
      (colStd !![(5 : ℝ), 0; 5, 1] 0 = 0 ∧
        maybeNormalize !![(5 : ℝ), 0; 5, 1] 0 0 = NVal.nan ∧
        (maybeNormalize !![(5 : ℝ), 0; 5, 1] 0 0).isFinite = false) :=
  ⟨by decide, by decide,
    c9_zero_variance_nan !![(5 : ℝ), 0; 5, 1] 0 0 (by decide) (by decide)
      (by intro i' i''; fin_cases i' <;> fin_cases i'' <;> simp)⟩

end Regression
